import Mathlib

/-!
# FinTrack backend — verification of the risk-scoring engine and job pipeline

Shallow embedding of the FinTrack transaction-intake backend:

* `src/riskEstimator.js` — the canonical `RiskEstimator` (scores in [0,100]);
* `src/fintrack-risk-lib/index.js` — the alternate `RiskEstimator` (scores in [0,1]);
* the CSV header mapping (`pickByTokens`, `safeParseNumber`, token lists) and the
  job processors / worker loop of the local-upload server variant.

JavaScript dynamic values are modelled by `JSValue`; IEEE-754 doubles are modelled
by real numbers plus explicit `nan` / `inf` / `ninf` markers (`JSNum`).  Exceptions
are modelled with `Except`.  Database effects of the worker are modelled as lists
of primitive operations (`DBOp`) applied to an explicit state (`DB`).
-/

/-- A JavaScript number: a finite double (modelled as a real), `NaN`, or `±Infinity`. -/
inductive JSNum where
  | nan : JSNum
  | inf : JSNum
  | ninf : JSNum
  | val : ℝ → JSNum

/-- The JavaScript values a transaction field can hold in this system:
`undefined` (absent field), `null`, booleans, numbers and strings. -/
inductive JSValue where
  | undef : JSValue
  | null : JSValue
  | bool : Bool → JSValue
  | num : JSNum → JSValue
  | str : String → JSValue

/-- JS whitespace test for `String.prototype.trim` (common whitespace chars). -/
def isJsWs (c : Char) : Bool := c = ' ' || c = '\t' || c = '\n' || c = '\r'

/-- Models `String.prototype.trim()`: strip whitespace from both ends. -/
def jsTrim (s : String) : String :=
  String.mk (((s.toList.dropWhile isJsWs).reverse.dropWhile isJsWs).reverse)

/-- `sub` is a prefix of `l` (character lists). -/
def isPrefixList : List Char → List Char → Bool
  | [], _ => true
  | _ :: _, [] => false
  | a :: as, b :: bs => a = b && isPrefixList as bs

/-- `sub` occurs somewhere inside `l` (character lists). -/
def containsList (sub : List Char) : List Char → Bool
  | [] => sub.isEmpty
  | b :: bs => isPrefixList sub (b :: bs) || containsList sub bs

/-- Models `s.includes(sub)` from JS: substring containment. -/
def jsIncludes (s sub : String) : Bool := containsList sub.toList s.toList

/-- Numeric value of a digit list, base 10. -/
def natOfDigits (cs : List Char) : ℕ := cs.foldl (fun n c => n * 10 + (c.toNat - 48)) 0

/-- Parse an unsigned decimal literal (`d+`, `d+.d*`, `.d+`, `d+.d+`) as a real. -/
noncomputable def parseUnsignedDec (cs : List Char) : Option ℝ :=
  let intPart := cs.takeWhile (fun c => c ≠ '.')
  let rest := cs.dropWhile (fun c => c ≠ '.')
  match rest with
  | [] =>
    if cs ≠ [] && cs.all (·.isDigit) then some ((natOfDigits cs : ℕ) : ℝ) else none
  | _ :: frac =>
    if (intPart ≠ [] || frac ≠ []) && intPart.all (·.isDigit) && frac.all (·.isDigit) then
      some (((natOfDigits intPart : ℕ) : ℝ) + ((natOfDigits frac : ℕ) : ℝ) / 10 ^ frac.length)
    else none

/-- Models `Number(string)` on the decimal forms this system feeds it: leading/trailing
whitespace ignored, empty/whitespace-only strings are `0`, optional sign, decimal
literals, `Infinity`; anything else is `NaN`.  (Hex and exponent literals are omitted;
no claim in this development depends on them.) -/
noncomputable def jsParseNumber (s : String) : JSNum :=
  let t := jsTrim s
  if t = "" then .val 0
  else if t = "Infinity" || t = "+Infinity" then .inf
  else if t = "-Infinity" then .ninf
  else
    match t.toList with
    | '-' :: rest => match parseUnsignedDec rest with
      | some x => .val (-x)
      | none => .nan
    | '+' :: rest => match parseUnsignedDec rest with
      | some x => .val x
      | none => .nan
    | cs => match parseUnsignedDec cs with
      | some x => .val x
      | none => .nan

/-- Models `Number(tx.amount || 0)` from `riskEstimator.js` line 17: a falsy amount
(`undefined`, `null`, `false`, `0`, `NaN`, `""`) is replaced by `0` before the
`Number` coercion; a truthy amount is coerced itself.  For a number `x` the two
branches agree (`Number(0) = 0`), so no test `x ≠ 0` is needed. -/
noncomputable def amountOf : JSValue → JSNum
  | .undef => .val 0
  | .null => .val 0
  | .bool b => if b then .val 1 else .val 0
  | .num .nan => .val 0
  | .num n => n
  | .str s => if s = "" then .val 0 else jsParseNumber s

/-- Models `String.prototype.toLowerCase()` (ASCII model, per `Char.toLower`). -/
def jsToLower (s : String) : String := String.mk (s.toList.map Char.toLower)

/-- Models `(v || "").toLowerCase()` (`riskEstimator.js` lines 23 and 35): strings
lower-case; falsy values default to `""` first; a truthy non-string value has no
`toLowerCase` method, so the expression raises a `TypeError`, modelled as
`Except.error ()`. -/
noncomputable def jsOrStrLower : JSValue → Except Unit String
  | .str s => .ok (jsToLower s)
  | .undef => .ok ""
  | .null => .ok ""
  | .bool b => if b then .error () else .ok ""
  | .num .nan => .ok ""
  | .num (.val x) => if x = 0 then .ok "" else .error ()
  | .num .inf => .error ()
  | .num .ninf => .error ()

/-- Hour field of an ISO-like timestamp string `YYYY-MM-DDTHH…` (UTC model);
`none` for strings that do not have this shape (an Invalid Date). -/
def isoHour (s : String) : Option ℕ :=
  let cs := s.toList
  let dig := fun (i : ℕ) => (cs.getD i ' ').isDigit
  if dig 0 && dig 1 && dig 2 && dig 3 && cs.getD 4 ' ' = '-' && dig 5 && dig 6 &&
      cs.getD 7 ' ' = '-' && dig 8 && dig 9 && cs.getD 10 ' ' = 'T' && dig 11 && dig 12 then
    let h := ((cs.getD 11 '0').toNat - 48) * 10 + ((cs.getD 12 '0').toNat - 48)
    if h < 24 then some h else none
  else none

/-- Models the observable effect of `new Date(tx.timestamp)` followed by the
`!isNaN(t)` test and `t.getHours()` (`riskEstimator.js` lines 29-30), in UTC:
`none` is an Invalid Date; otherwise the local hour.  Strings are parsed as
ISO-like dates; other values are coerced to epoch milliseconds.  A simplified
model of the JS date parser: no claim depends on which exact strings parse. -/
noncomputable def jsDateHours : JSValue → Option ℕ
  | .str s => isoHour (jsTrim s)
  | .null => some 0
  | .bool _ => some 0
  | .num .nan => none
  | .num .inf => none
  | .num .ninf => none
  | .num (.val x) => some ((⌊x / 3600000⌋ % 24).toNat)
  | .undef => none

/-- Models `Math.round(x * 100) / 100` (rounding to 2 decimal places;
JS `Math.round` is `⌊x + 1/2⌋`). -/
noncomputable def jsRound2 (x : ℝ) : ℝ := ((⌊x * 100 + 1 / 2⌋ : ℤ) : ℝ) / 100

/-- Configuration of the canonical estimator (`riskEstimator.js` constructor). -/
structure RiskCfg where
  large_amount_threshold : ℝ
  large_amount_weight : ℝ
  unusual_country_weight : ℝ
  off_hours_weight : ℝ
  merchant_blacklist_weight : ℝ

/-- The default configuration from the `riskEstimator.js` constructor. -/
noncomputable def defaultCfg : RiskCfg :=
  { large_amount_threshold := 1000
    large_amount_weight := 0.4
    unusual_country_weight := 0.25
    off_hours_weight := 0.2
    merchant_blacklist_weight := 0.15 }

/-- The merchant blacklist of the canonical estimator. -/
def merchant_blacklist : List String := ["scamshop ltd", "suspicious merchant"]

/-- The large-amount signal of the canonical estimator (`riskEstimator.js` lines
19-21): `0` below the threshold, otherwise `min(1, ln(amount/threshold + 1)) *
weight * 100`.  `Infinity ≥ threshold` holds and `min(1, ln ∞) = 1`; comparisons
with `NaN` are false. -/
noncomputable def largeAmountContrib (cfg : RiskCfg) : JSNum → ℝ
  | .val a =>
    if cfg.large_amount_threshold ≤ a then
      min 1 (Real.log (a / cfg.large_amount_threshold + 1)) * cfg.large_amount_weight * 100
    else 0
  | .inf => 1 * cfg.large_amount_weight * 100
  | .ninf => 0
  | .nan => 0

/-- A transaction object as passed to the estimators: each field is an arbitrary
JS value (so absent and malformed fields are representable). -/
structure JSTx where
  amount : JSValue
  country : JSValue
  merchant : JSValue
  timestamp : JSValue

/-- The allowed countries of the canonical estimator. -/
def allowedCountries : List String := ["ireland", "uk", "usa"]

/-- Embedding of `RiskEstimator.scoreTransaction` from `src/riskEstimator.js`
(lines 15-41).  The two `toLowerCase()` call sites are the only places the
function can throw; both are modelled by the `Except` error case (the source
raises `TypeError` at whichever site is reached first — the distinction is not
observable here since both carry no data). -/
noncomputable def scoreTransaction (cfg : RiskCfg) (tx : JSTx) : Except Unit ℝ :=
  let amount := amountOf tx.amount
  let s1 := largeAmountContrib cfg amount
  match jsOrStrLower tx.country, jsOrStrLower tx.merchant with
  | .ok country, .ok merchant =>
    let s2 := if country ≠ "" ∧ country ∉ allowedCountries then
        cfg.unusual_country_weight * 100 else 0
    let s3 := match jsDateHours tx.timestamp with
      | some h => if h < 5 then cfg.off_hours_weight * 100 else 0
      | none => 0
    let s4 := if merchant ∈ merchant_blacklist then cfg.merchant_blacklist_weight * 100 else 0
    .ok (min 100 (jsRound2 (s1 + s2 + s3 + s4)))
  | .error e, _ => .error e
  | _, .error e => .error e

/-- Models `Math.round(x * 1000) / 1000` (rounding to 3 decimal places). -/
noncomputable def jsRound3 (x : ℝ) : ℝ := ((⌊x * 1000 + 1 / 2⌋ : ℤ) : ℝ) / 1000

/-- Suspicious-merchant token list of the [0,1] estimator
(`src/fintrack-risk-lib/index.js` line 17). -/
def suspiciousList : List String := ["casino", "bet", "lottery", "unknown", "transfer"]

/-- The suspicious-merchant signal of the [0,1] estimator: `0.25` is added for every
list entry that occurs as a substring of the lowercased merchant name
(`src/fintrack-risk-lib/index.js` line 18). -/
noncomputable def suspContrib (m : String) : ℝ :=
  suspiciousList.foldl (fun sc s => if jsIncludes m s then sc + 0.25 else sc) 0

/-- Finite-score part of the [0,1] estimator, after the high-amount signal has been
evaluated to the real `s0`: country penalty, suspicious-merchant loop, off-hours
signal, the two clamps, and rounding to 3 decimal places
(`src/fintrack-risk-lib/index.js` lines 13-28). -/
noncomputable def scoreCore2Aux (s0 : ℝ) (country merchant : String) (hour : Option ℕ) : ℝ :=
  let c := jsToLower country
  let m := jsToLower merchant
  let s1 := s0 + (if c ≠ "" ∧ c ≠ "ireland" then 0.3 else 0)
  let s2 := suspiciousList.foldl (fun sc s => if jsIncludes m s then sc + 0.25 else sc) s1
  let s3 := s2 + (match hour with
    | some h => if h ≤ 5 then 0.15 else 0
    | none => 0)
  let clamped := if 1 < s3 then 1 else if s3 < 0 then 0 else s3
  jsRound3 clamped

/-- Embedding of `RiskEstimator.scoreTransaction` from
`src/fintrack-risk-lib/index.js` (the [0,1] variant), specialized to the field
shapes this repository passes it: a numeric amount, string country/merchant (the
`(x || '').toLowerCase()` of a TEXT-or-NULL column cannot throw), and a timestamp
abstracted by its parsed hour (`none` = Invalid Date, whose signal is 0).

IEEE special cases of `score += Math.min(1, amount / 1000)`: a `NaN` amount makes
the running score `NaN`, which survives every later addition, fails both clamp
comparisons and makes `Math.round` return `NaN`; a `-Infinity` amount keeps the
running score `-Infinity` until the `score < 0` clamp resets it to `0`; an
`Infinity` amount contributes `min(1, ∞) = 1`. -/
noncomputable def scoreCore2 (amount : JSNum) (country merchant : String) (hour : Option ℕ) : JSNum :=
  match amount with
  | .nan => .nan
  | .ninf => .val 0
  | .inf => .val (scoreCore2Aux 1 country merchant hour)
  | .val x => .val (scoreCore2Aux (min 1 (x / 1000)) country merchant hour)

/-- A parsed CSV row: normalized header → raw string value, in column order
(the order `Object.entries` yields for the row object built by `csv-parse`). -/
abbrev Row : Type := List (String × String)

/-- Embedding of `pickByTokens` from the local-upload server (`pickByTokens(tokens,
row)`): scan the row's columns in order; skip empty headers; return the first
trimmed value whose header contains one of the tokens and whose value is
non-blank after trimming; `null` (`none`) when no column qualifies.
(`String(v || '').trim()` and `String(v).trim()` agree on string values.) -/
def pickByTokens (tokens : List String) : Row → Option String
  | [] => none
  | (k, v) :: rest =>
    if k = "" then pickByTokens tokens rest
    else if tokens.any (fun t => jsIncludes k t && !(jsTrim v = "")) then some (jsTrim v)
    else pickByTokens tokens rest

/-- Amount-column tokens of the CSV mapper. -/
def amountTokens : List String :=
  ["amount", "amt", "value", "price", "debit", "credit", "transaction_amount",
   "amount_eur", "amount_euro"]

/-- Merchant-column tokens of the CSV mapper. -/
def merchantTokens : List String :=
  ["merchant", "shop", "payee", "vendor", "store", "description", "narrative",
   "merchant_name"]

/-- Country-column tokens of the CSV mapper. -/
def countryTokens : List String :=
  ["country", "location", "country_code", "countryname", "country_name"]

/-- Date-column tokens of the CSV mapper. -/
def dateTokens : List String :=
  ["timestamp", "date", "datetime", "transaction_date", "posted_date", "created_at", "time"]

/-- Strip every character except digits, `.` and `-`
(the `replace(/[^\d.\-]/g, '')` of `safeParseNumber`). -/
def stripNonNumeric (s : String) : String :=
  String.mk (s.toList.filter (fun c => c.isDigit || c = '.' || c = '-'))

/-- Embedding of `safeParseNumber` from the local-upload server: strip currency
symbols / separators, coerce with `Number`, return `0` unless the result is
finite. -/
noncomputable def safeParseNumber (s : String) : ℝ :=
  match jsParseNumber (jsTrim (stripNonNumeric s)) with
  | .val x => x
  | _ => 0

/-- Models `x || d` on an optional string: `null` and `""` fall back to the
default (`merchant = pickByTokens(...) || 'unknown'` and the country analogue). -/
def jsOrDefault (v : Option String) (d : String) : String :=
  match v with
  | some s => if s = "" then d else s
  | none => d

/-- Status column of a job record. -/
inductive JobStatus where
  | pending : JobStatus
  | processing : JobStatus
  | done : JobStatus
  | failed : JobStatus
deriving DecidableEq

/-- A row of the `transactions` table, with the timestamp abstracted by its hour
(`none` = a value `new Date` cannot parse) and the amount as a JS number. -/
structure Txn where
  id : String
  user_id : String
  amount : JSNum
  country : Option String
  merchant : Option String
  hour : Option ℕ
  risk_score : JSNum

/-- A row of the `jobs` table; the JSONB payload is `{user_id, local_path?}`. -/
structure JobRec where
  id : String
  jtype : String
  pUser : Option String
  pPath : Option String
  status : JobStatus
  createdAt : ℕ

/-- The persistent state the worker reads and writes: the `jobs` and
`transactions` tables plus the readable files of `/tmp/uploads`, each file
abstracted by its parsed CSV records. -/
structure DB where
  jobs : List JobRec
  transactions : List Txn
  files : List (String × List Row)

/-- Ambient nondeterminism of one worker pass: `rowFail i` models an exception
raised while resolving or inserting the `i`-th CSV row (the `catch (innerErr)`
handler); `ids` models the `uuidv4()` draws; `nowHour` the hour of `new Date()`
used for rows without a date column. -/
structure WorkerEnv where
  rowFail : ℕ → Bool
  ids : ℕ → String
  nowHour : ℕ

/-- The primitive database/file writes the job processors perform. -/
inductive DBOp where
  | setStatus : String → JobStatus → DBOp
  | insertTxn : Txn → DBOp
  | setScore : String → JSNum → DBOp
  | deleteFile : String → DBOp

/-- Apply one primitive write: `UPDATE jobs SET status=… WHERE id=…`,
`INSERT INTO transactions …`, `UPDATE transactions SET risk_score=… WHERE id=…`,
`fs.unlinkSync`. -/
def applyOp (db : DB) : DBOp → DB
  | .setStatus i s =>
    { db with jobs := db.jobs.map (fun j => if j.id = i then { j with status := s } else j) }
  | .insertTxn t => { db with transactions := db.transactions ++ [t] }
  | .setScore i r =>
    { db with transactions :=
        db.transactions.map (fun t => if t.id = i then { t with risk_score := r } else t) }
  | .deleteFile p => { db with files := db.files.filter (fun f => !(f.1 = p)) }

/-- Apply a list of primitive writes in order. -/
def applyOps (db : DB) (ops : List DBOp) : DB := ops.foldl applyOp db

/-- Status of the job with the given id (`none` if no such job row exists). -/
def statusOf (db : DB) (i : String) : Option JobStatus :=
  (db.jobs.find? (fun j => j.id = i)).map (fun j => j.status)

/-- Resolution of one CSV row into a transaction draft plus its score, from
`processParseCsvJob` of the local-upload server: token-picked amount
(`safeParseNumber(pickByTokens(amountTokens,row) ?? 0)`, and `safeParseNumber(0)
= 0`), merchant/country with their defaults, the date column's parsed hour (or
the current hour when no date column matches), and the [0,1] estimator's score. -/
noncomputable def resolveRow (env : WorkerEnv) (uid tid : String) (row : Row) : Txn :=
  let amount : ℝ := match pickByTokens amountTokens row with
    | some s => safeParseNumber s
    | none => 0
  let merchant := jsOrDefault (pickByTokens merchantTokens row) "unknown"
  let country := jsOrDefault (pickByTokens countryTokens row) "Ireland"
  let hour : Option ℕ := match pickByTokens dateTokens row with
    | some s => isoHour s
    | none => some env.nowHour
  { id := tid, user_id := uid, amount := .val amount, country := some country,
    merchant := some merchant, hour := hour,
    risk_score := scoreCore2 (.val amount) country merchant hour }

/-- The per-row loop of `processParseCsvJob` over the indexed records: a row whose
resolution/insert raises (`env.rowFail`) is caught and skipped; every other row
yields one inserted transaction. -/
noncomputable def rowTxns (env : WorkerEnv) (uid : String) : List (ℕ × Row) → List Txn
  | [] => []
  | p :: rest =>
    if env.rowFail p.1 then rowTxns env uid rest
    else resolveRow env uid (env.ids p.1) p.2 :: rowTxns env uid rest

/-- Embedding of `processParseCsvJob` as the list of writes it performs: missing
payload fields or an unreadable file mark the job `failed`; otherwise every
surviving row is inserted, the uploaded file is deleted and the job is marked
`done`. -/
noncomputable def processParseCsvJob (env : WorkerEnv) (db : DB) (job : JobRec) : List DBOp :=
  match job.pUser, job.pPath with
  | some uid, some path =>
    match db.files.lookup path with
    | some records =>
      (rowTxns env uid records.enum).map DBOp.insertTxn
        ++ [DBOp.deleteFile path, DBOp.setStatus job.id .done]
    | none => [DBOp.setStatus job.id .failed]
  | _, _ => [DBOp.setStatus job.id .failed]

/-- The [0,1] estimator applied to a stored transaction row, as in
`processRescoreJob`: `(t.country || '')` / `(t.merchant || '')` turn a NULL
column into the empty string. -/
noncomputable def scoreTxn (t : Txn) : JSNum :=
  scoreCore2 t.amount (t.country.getD "") (t.merchant.getD "") t.hour

/-- Embedding of `processRescoreJob` as the list of writes it performs: a missing
`user_id` marks the job `failed`; otherwise every transaction of the user gets
its risk score recomputed from its stored fields, then the job is marked `done`. -/
noncomputable def processRescoreJob (db : DB) (job : JobRec) : List DBOp :=
  match job.pUser with
  | none => [DBOp.setStatus job.id .failed]
  | some uid =>
    ((db.transactions.filter (fun t => t.user_id = uid)).map
        (fun t => DBOp.setScore t.id (scoreTxn t)))
      ++ [DBOp.setStatus job.id .done]

/-- The dispatch of the worker loop body: `parse_csv` and `rescore_all` go to
their processors; an unknown type is marked `failed` directly. -/
noncomputable def jobOps (env : WorkerEnv) (db : DB) (job : JobRec) : List DBOp :=
  if job.jtype = "parse_csv" then processParseCsvJob env db job
  else if job.jtype = "rescore_all" then processRescoreJob db job
  else [DBOp.setStatus job.id .failed]

/-- Insert a job into a list sorted by ascending `created_at`. -/
def insertByCreated (j : JobRec) : List JobRec → List JobRec
  | [] => [j]
  | k :: rest => if j.createdAt < k.createdAt then j :: k :: rest else k :: insertByCreated j rest

/-- Sort jobs by ascending `created_at` (`ORDER BY created_at`). -/
def sortByCreated : List JobRec → List JobRec
  | [] => []
  | j :: rest => insertByCreated j (sortByCreated rest)

/-- The claim query of the worker loop:
`SELECT * FROM jobs WHERE status='pending' ORDER BY created_at LIMIT 5`. -/
def claimBatch (db : DB) : List JobRec :=
  (sortByCreated (db.jobs.filter (fun j => j.status == JobStatus.pending))).take 5

/-- One worker-loop iteration over a claimed batch, as state evolution: each job
is first set to `processing`, then its processor's writes are applied. -/
noncomputable def runDB (env : WorkerEnv) (db : DB) : List JobRec → DB
  | [] => db
  | j :: rest =>
    runDB env
      (applyOps (applyOp db (DBOp.setStatus j.id .processing))
        (jobOps env (applyOp db (DBOp.setStatus j.id .processing)) j)) rest

/-- One worker-loop iteration over a claimed batch, as the flat list of writes it
performs (each job's writes are computed against the state current when the job
runs, exactly as `runDB` evolves it). -/
noncomputable def runOps (env : WorkerEnv) (db : DB) : List JobRec → List DBOp
  | [] => []
  | j :: rest =>
    DBOp.setStatus j.id .processing ::
      (jobOps env (applyOp db (DBOp.setStatus j.id .processing)) j
        ++ runOps env
            (applyOps (applyOp db (DBOp.setStatus j.id .processing))
              (jobOps env (applyOp db (DBOp.setStatus j.id .processing)) j)) rest)

/-- One full iteration of `workerLoop`: claim the pending batch and run it. -/
noncomputable def workerStep (env : WorkerEnv) (db : DB) : DB :=
  runDB env db (claimBatch db)

/-- The forward transitions of the job-status lifecycle
`pending → processing → {done, failed}`. -/
def forwardB : JobStatus → JobStatus → Bool
  | .pending, .processing => true
  | .processing, .done => true
  | .processing, .failed => true
  | _, _ => false

/-- Every status write in the operation list, applied at its position in the
run, moves the targeted job (which must exist) strictly forward along
`pending → processing → {done, failed}`. -/
def ForwardRun : DB → List DBOp → Prop
  | _, [] => True
  | db, op :: rest =>
    (∀ i s, op = DBOp.setStatus i s →
      ∃ cur, statusOf db i = some cur ∧ forwardB cur s = true) ∧
    ForwardRun (applyOp db op) rest

/-- The JS values on which `(v || "").toLowerCase()` succeeds: strings, plus every
falsy value (which the `||` replaces by `""`). -/
def StrOrFalsy : JSValue → Prop
  | .str _ => True
  | .undef => True
  | .null => True
  | .bool b => b = false
  | .num .nan => True
  | .num (.val x) => x = 0
  | .num .inf => False
  | .num .ninf => False

/-- Primitive writes that do not touch the `status` column. -/
def statusFree : DBOp → Prop
  | .setStatus _ _ => False
  | .insertTxn _ => True
  | .setScore _ _ => True
  | .deleteFile _ => True

/-- The writes of one job processor: some status-free writes followed by exactly
one terminal status write for the job itself. -/
def statusTerminalShape (jid : String) (ops : List DBOp) : Prop :=
  ∃ pre s, ops = pre ++ [DBOp.setStatus jid s] ∧ (∀ op ∈ pre, statusFree op) ∧
    (s = JobStatus.done ∨ s = JobStatus.failed)

/-- Worker environment for the C4 witness: the row at index 1 raises. -/
def envC4 : WorkerEnv := ⟨fun i => i == 1, fun _ => "t", 0⟩

/-- The 3-row CSV of the C4 witness. -/
def rowsC4 : List Row := [[("amount", "10")], [("amount", "20")], [("amount", "30")]]

/-- The parse_csv job of the C4 witness. -/
def jobC4 : JobRec := ⟨"job1", "parse_csv", some "u1", some "f.csv", .pending, 0⟩

/-- The database of the C4 witness. -/
def dbC4 : DB := ⟨[jobC4], [], [("f.csv", rowsC4)]⟩

/-- The per-transaction effect of one `rescore_all` pass on a user's data
(derived characterization; the operational definition is `processRescoreJob`). -/
noncomputable def rescoreOne (uid : String) (u : Txn) : Txn :=
  if u.user_id = uid then { u with risk_score := scoreTxn u } else u

/-- The two rescore jobs and database of the C8 witness. -/
def jobC8 : JobRec := ⟨"r1", "rescore_all", some "u1", none, .pending, 0⟩

/-- Second rescore job of the C8 witness. -/
def jobC8b : JobRec := ⟨"r2", "rescore_all", some "u1", none, .pending, 1⟩

/-- Database of the C8 witness: one transaction for the user. -/
def dbC8 : DB :=
  ⟨[jobC8, jobC8b],
    [⟨"t1", "u1", .val 2500, some "France", some "casino", some 2, .val 0⟩], []⟩

/-- `op` is not a status write on job `i`. -/
def notStatusOn (i : String) (op : DBOp) : Prop :=
  ∀ q s, op = DBOp.setStatus q s → q ≠ i

/-- The bogus job of the C6 witness. -/
def jobC6 : JobRec := ⟨"b1", "bogus", some "u1", none, .pending, 0⟩

/-- The well-formed job claimed in the same batch in the C6 witness. -/
def jobC6b : JobRec := ⟨"g1", "rescore_all", some "u1", none, .pending, 1⟩

/-- The database of the C6 witness: a bogus job and a rescore job, both pending. -/
def dbC6 : DB := ⟨[jobC6, jobC6b], [], []⟩

/-- The worker environment of the C6 witness. -/
def envC6 : WorkerEnv := ⟨fun _ => false, fun _ => "x", 0⟩

/-! ## Helper lemmas about the canonical estimator -/

lemma defaultCfg_threshold_pos : (0:ℝ) < defaultCfg.large_amount_threshold := by
  norm_num [defaultCfg]

lemma largeAmountContrib_nonneg (n : JSNum) : 0 ≤ largeAmountContrib defaultCfg n := by
  cases n with
  | nan => simp [largeAmountContrib]
  | ninf => simp [largeAmountContrib]
  | inf => norm_num [largeAmountContrib, defaultCfg]
  | val a =>
    by_cases h : defaultCfg.large_amount_threshold ≤ a
    · have hdiv : (1:ℝ) ≤ a / defaultCfg.large_amount_threshold :=
        (one_le_div defaultCfg_threshold_pos).mpr h
      have hlog : 0 ≤ Real.log (a / defaultCfg.large_amount_threshold + 1) :=
        Real.log_nonneg (by linarith)
      have hmin : 0 ≤ min 1 (Real.log (a / defaultCfg.large_amount_threshold + 1)) :=
        le_min (by norm_num) hlog
      simp only [largeAmountContrib, if_pos h]
      have hw : (0:ℝ) ≤ defaultCfg.large_amount_weight * 100 := by norm_num [defaultCfg]
      nlinarith
    · simp [largeAmountContrib, if_neg h]

lemma largeAmountContrib_le_forty (n : JSNum) : largeAmountContrib defaultCfg n ≤ 40 := by
  cases n with
  | nan => simp [largeAmountContrib]
  | ninf => simp [largeAmountContrib]
  | inf => norm_num [largeAmountContrib, defaultCfg]
  | val a =>
    by_cases h : defaultCfg.large_amount_threshold ≤ a
    · simp only [largeAmountContrib, if_pos h]
      norm_num [defaultCfg]
      have hmin : (1 : ℝ) ⊓ Real.log (a / 1000 + 1) ≤ 1 := inf_le_left
      linarith
    · simp [largeAmountContrib, if_neg h]

lemma ite_weight_bounds {b : Prop} [Decidable b] {w : ℝ} (hw : 0 ≤ w) :
    0 ≤ (if b then w else 0) ∧ (if b then w else 0) ≤ w := by
  split_ifs <;> constructor <;> linarith

lemma jsRound2_nonneg {x : ℝ} (hx : 0 ≤ x) : 0 ≤ jsRound2 x := by
  unfold jsRound2
  have : (0:ℤ) ≤ ⌊x * 100 + 1 / 2⌋ := Int.floor_nonneg.mpr (by linarith)
  have : (0:ℝ) ≤ ((⌊x * 100 + 1 / 2⌋ : ℤ) : ℝ) := by exact_mod_cast this
  linarith

lemma jsRound2_mono {x y : ℝ} (h : x ≤ y) : jsRound2 x ≤ jsRound2 y := by
  unfold jsRound2
  have : ⌊x * 100 + 1 / 2⌋ ≤ ⌊y * 100 + 1 / 2⌋ := Int.floor_mono (by linarith)
  have : ((⌊x * 100 + 1 / 2⌋ : ℤ) : ℝ) ≤ ((⌊y * 100 + 1 / 2⌋ : ℤ) : ℝ) := by exact_mod_cast this
  linarith

/-- C7: in the canonical estimator, every amount strictly below the configured
(positive) threshold contributes exactly 0 through the large-amount signal, and
an amount equal to the threshold contributes exactly
`largeAmountWeight * 100 * min(1, ln 2)`. -/
theorem c7_largeAmount_threshold_boundary (cfg : RiskCfg)
    (hth : 0 < cfg.large_amount_threshold) :
    (∀ a : ℝ, a < cfg.large_amount_threshold → largeAmountContrib cfg (.val a) = 0) ∧
    largeAmountContrib cfg (.val cfg.large_amount_threshold)
      = cfg.large_amount_weight * 100 * min 1 (Real.log 2) := by
  constructor
  · intro a ha
    simp [largeAmountContrib, if_neg (not_le.mpr ha)]
  · have h2 : cfg.large_amount_threshold / cfg.large_amount_threshold + 1 = (2:ℝ) := by
      rw [div_self (ne_of_gt hth)]; norm_num
    simp only [largeAmountContrib, if_pos (le_refl cfg.large_amount_threshold), h2]
    ring

/-- Witness for C7 at the default configuration (threshold 1000). -/
theorem c7_largeAmount_threshold_boundary_witness :
    0 < defaultCfg.large_amount_threshold ∧
    ((∀ a : ℝ, a < defaultCfg.large_amount_threshold →
        largeAmountContrib defaultCfg (.val a) = 0) ∧
      largeAmountContrib defaultCfg (.val defaultCfg.large_amount_threshold)
        = defaultCfg.large_amount_weight * 100 * min 1 (Real.log 2)) :=
  ⟨defaultCfg_threshold_pos,
    c7_largeAmount_threshold_boundary defaultCfg defaultCfg_threshold_pos⟩

lemma scoreTransaction_eq_ok (cfg : RiskCfg) (tx : JSTx) (c m : String)
    (hc : jsOrStrLower tx.country = .ok c) (hm : jsOrStrLower tx.merchant = .ok m) :
    scoreTransaction cfg tx = .ok (min 100 (jsRound2 (
      largeAmountContrib cfg (amountOf tx.amount)
      + (if c ≠ "" ∧ c ∉ allowedCountries then cfg.unusual_country_weight * 100 else 0)
      + (match jsDateHours tx.timestamp with
          | some h => if h < 5 then cfg.off_hours_weight * 100 else 0
          | none => 0)
      + (if m ∈ merchant_blacklist then cfg.merchant_blacklist_weight * 100 else 0)))) := by
  unfold scoreTransaction
  rw [hc, hm]

lemma scoreTransaction_error_left (cfg : RiskCfg) (tx : JSTx)
    (hc : jsOrStrLower tx.country = .error ()) :
    scoreTransaction cfg tx = .error () := by
  unfold scoreTransaction
  rw [hc]
  cases jsOrStrLower tx.merchant with
  | error e => rfl
  | ok m => rfl

lemma scoreTransaction_error_right (cfg : RiskCfg) (tx : JSTx)
    (hm : jsOrStrLower tx.merchant = .error ()) :
    scoreTransaction cfg tx = .error () := by
  unfold scoreTransaction
  rw [hm]
  cases jsOrStrLower tx.country with
  | error e => rfl
  | ok c => rfl

/-- C1 (counterexample): the claim promises a numeric result for *every* input,
including malformed fields, but a transaction whose `country` field holds the
number `5` makes `(tx.country || "").toLowerCase()` call `toLowerCase` on a
number, which raises a `TypeError` instead of returning a score. -/
theorem c1_counterexample :
    scoreTransaction defaultCfg ⟨.undef, .num (.val 5), .undef, .undef⟩ = .error () := by
  have hc : jsOrStrLower (JSValue.num (.val 5)) = .error () := by
    rw [jsOrStrLower]
    norm_num
  exact scoreTransaction_error_left defaultCfg _ hc

/-- C1 (amended): whenever the canonical `scoreTransaction` returns at all (it
throws on a truthy non-string `country` or `merchant`), the returned value is in
`[0, 100]` and is an integer multiple of `0.01` (rounded to 2 decimal places). -/
theorem c1_score_in_range_rounded (tx : JSTx) (r : ℝ)
    (h : scoreTransaction defaultCfg tx = .ok r) :
    0 ≤ r ∧ r ≤ 100 ∧ ∃ k : ℤ, r = (k : ℝ) / 100 := by
  cases hc : jsOrStrLower tx.country with
  | error e =>
    cases e
    rw [scoreTransaction_error_left defaultCfg tx hc] at h
    simp at h
  | ok c =>
    cases hm : jsOrStrLower tx.merchant with
    | error e =>
      cases e
      rw [scoreTransaction_error_right defaultCfg tx hm] at h
      simp at h
    | ok m =>
      rw [scoreTransaction_eq_ok defaultCfg tx c m hc hm] at h
      injection h with h
      subst h
      have hw2 : (0:ℝ) ≤ defaultCfg.unusual_country_weight * 100 := by norm_num [defaultCfg]
      have hw3 : (0:ℝ) ≤ defaultCfg.off_hours_weight * 100 := by norm_num [defaultCfg]
      have hw4 : (0:ℝ) ≤ defaultCfg.merchant_blacklist_weight * 100 := by norm_num [defaultCfg]
      have hb1l := largeAmountContrib_nonneg (amountOf tx.amount)
      have hb2 := ite_weight_bounds (b := c ≠ "" ∧ c ∉ allowedCountries) hw2
      have hb3 : 0 ≤ (match jsDateHours tx.timestamp with
            | some h => if h < 5 then defaultCfg.off_hours_weight * 100 else 0
            | none => 0) := by
        cases jsDateHours tx.timestamp with
        | none => exact le_refl (0:ℝ)
        | some hh => exact (ite_weight_bounds (b := hh < 5) hw3).1
      have hb4 := ite_weight_bounds (b := m ∈ merchant_blacklist) hw4
      have hT0 : 0 ≤ largeAmountContrib defaultCfg (amountOf tx.amount)
          + (if c ≠ "" ∧ c ∉ allowedCountries then defaultCfg.unusual_country_weight * 100 else 0)
          + (match jsDateHours tx.timestamp with
              | some h => if h < 5 then defaultCfg.off_hours_weight * 100 else 0
              | none => 0)
          + (if m ∈ merchant_blacklist then defaultCfg.merchant_blacklist_weight * 100 else 0) := by
        obtain ⟨h2l, h2u⟩ := hb2
        obtain ⟨h4l, h4u⟩ := hb4
        linarith
      refine ⟨le_min (by norm_num) (jsRound2_nonneg hT0), min_le_left _ _, ?_⟩
      rcases le_total (jsRound2 (largeAmountContrib defaultCfg (amountOf tx.amount)
          + (if c ≠ "" ∧ c ∉ allowedCountries then defaultCfg.unusual_country_weight * 100 else 0)
          + (match jsDateHours tx.timestamp with
              | some h => if h < 5 then defaultCfg.off_hours_weight * 100 else 0
              | none => 0)
          + (if m ∈ merchant_blacklist then defaultCfg.merchant_blacklist_weight * 100 else 0)))
          100 with hle | hge
      · refine ⟨⌊(largeAmountContrib defaultCfg (amountOf tx.amount)
          + (if c ≠ "" ∧ c ∉ allowedCountries then defaultCfg.unusual_country_weight * 100 else 0)
          + (match jsDateHours tx.timestamp with
              | some h => if h < 5 then defaultCfg.off_hours_weight * 100 else 0
              | none => 0)
          + (if m ∈ merchant_blacklist then defaultCfg.merchant_blacklist_weight * 100 else 0))
            * 100 + 1 / 2⌋, ?_⟩
        rw [min_eq_right hle]
        rfl
      · exact ⟨10000, by rw [min_eq_left hge]; norm_num⟩

lemma scoreTransaction_allUndef :
    scoreTransaction defaultCfg ⟨.undef, .undef, .undef, .undef⟩ = .ok 0 := by
  rw [scoreTransaction_eq_ok defaultCfg ⟨.undef, .undef, .undef, .undef⟩ "" "" rfl rfl]
  have h1 : largeAmountContrib defaultCfg (amountOf JSValue.undef) = 0 := by
    have : ¬ defaultCfg.large_amount_threshold ≤ (0:ℝ) := by norm_num [defaultCfg]
    simp [amountOf, largeAmountContrib, this]
  have hfl : ⌊(2⁻¹ : ℝ)⌋ = (0:ℤ) := by
    apply Int.floor_eq_iff.mpr
    constructor <;> norm_num
  simp [h1, jsDateHours, merchant_blacklist, jsRound2]
  rw [hfl]
  norm_num

/-- Witness for C1 (amended) at the empty transaction object: the score is 0,
which is in range and a multiple of 0.01. -/
theorem c1_score_in_range_rounded_witness :
    scoreTransaction defaultCfg ⟨.undef, .undef, .undef, .undef⟩ = .ok 0 ∧
      (0 ≤ (0:ℝ) ∧ (0:ℝ) ≤ 100 ∧ ∃ k : ℤ, (0:ℝ) = (k : ℝ) / 100) :=
  ⟨scoreTransaction_allUndef,
    c1_score_in_range_rounded ⟨.undef, .undef, .undef, .undef⟩ 0 scoreTransaction_allUndef⟩

lemma jsOrStrLower_ok_of_strOrFalsy (v : JSValue) (h : StrOrFalsy v) :
    ∃ s, jsOrStrLower v = .ok s := by
  cases v with
  | str s => exact ⟨jsToLower s, rfl⟩
  | undef => exact ⟨"", rfl⟩
  | null => exact ⟨"", rfl⟩
  | bool b =>
    cases b with
    | false => exact ⟨"", rfl⟩
    | true => exact absurd h (by simp [StrOrFalsy])
  | num n =>
    cases n with
    | nan => exact ⟨"", rfl⟩
    | inf => exact absurd h (by simp [StrOrFalsy])
    | ninf => exact absurd h (by simp [StrOrFalsy])
    | val x =>
      have hx : x = 0 := h
      subst hx
      exact ⟨"", by rw [jsOrStrLower, if_pos rfl]⟩

/-- C2 (counterexample): the claim says `scoreTransaction` never throws, but a
transaction whose `merchant` field holds the boolean `true` (a wrong-typed
field) makes `(tx.merchant || "").toLowerCase()` raise a `TypeError`. -/
theorem c2_counterexample :
    scoreTransaction defaultCfg ⟨.undef, .undef, .bool true, .undef⟩ = .error () :=
  scoreTransaction_error_right defaultCfg _ rfl

/-- C2 (amended): the canonical `scoreTransaction` returns normally on every
transaction whose `country` and `merchant` fields are strings or falsy values
(absent, `null`, `false`, `0`, `NaN`) — the `amount` and `timestamp` fields may
hold anything, degrading to safe defaults.  A truthy non-string `country` or
`merchant` instead raises a `TypeError` (see the counterexample). -/
theorem c2_score_total_on_safe_fields (tx : JSTx)
    (hc : StrOrFalsy tx.country) (hm : StrOrFalsy tx.merchant) :
    ∃ r, scoreTransaction defaultCfg tx = .ok r := by
  obtain ⟨c, hc'⟩ := jsOrStrLower_ok_of_strOrFalsy tx.country hc
  obtain ⟨m, hm'⟩ := jsOrStrLower_ok_of_strOrFalsy tx.merchant hm
  exact ⟨_, scoreTransaction_eq_ok defaultCfg tx c m hc' hm'⟩

/-- Witness for C2 (amended): a transaction with string fields everywhere scores
normally. -/
theorem c2_score_total_on_safe_fields_witness :
    StrOrFalsy (JSValue.str "France") ∧ StrOrFalsy (JSValue.str "casino") ∧
      ∃ r, scoreTransaction defaultCfg
        ⟨.str "2500", .str "France", .str "casino", .str "2024-01-03T02:15:00Z"⟩ = .ok r :=
  ⟨trivial, trivial,
    c2_score_total_on_safe_fields
      ⟨.str "2500", .str "France", .str "casino", .str "2024-01-03T02:15:00Z"⟩
      trivial trivial⟩

lemma largeAmountContrib_mono {a1 a2 : ℝ} (h : a1 ≤ a2) :
    largeAmountContrib defaultCfg (.val a1) ≤ largeAmountContrib defaultCfg (.val a2) := by
  have hw04 : (0:ℝ) ≤ defaultCfg.large_amount_weight := by norm_num [defaultCfg]
  by_cases h1 : defaultCfg.large_amount_threshold ≤ a1
  · have h2 : defaultCfg.large_amount_threshold ≤ a2 := le_trans h1 h
    simp only [largeAmountContrib, if_pos h1, if_pos h2]
    have hth := defaultCfg_threshold_pos
    have hx1 : (0:ℝ) < a1 / defaultCfg.large_amount_threshold + 1 := by
      have : (1:ℝ) ≤ a1 / defaultCfg.large_amount_threshold := (one_le_div hth).mpr h1
      linarith
    have hdd : a1 / defaultCfg.large_amount_threshold + 1
        ≤ a2 / defaultCfg.large_amount_threshold + 1 := by
      have := (div_le_div_iff_of_pos_right hth).mpr h
      linarith
    have hmin := min_le_min (le_refl (1:ℝ)) (Real.log_le_log hx1 hdd)
    exact mul_le_mul_of_nonneg_right
      (mul_le_mul_of_nonneg_right hmin hw04) (by norm_num)
  · simp only [largeAmountContrib, if_neg h1]
    by_cases h2 : defaultCfg.large_amount_threshold ≤ a2
    · rw [if_pos h2]
      have hdiv : (1:ℝ) ≤ a2 / defaultCfg.large_amount_threshold :=
        (one_le_div defaultCfg_threshold_pos).mpr h2
      have hmin : 0 ≤ min 1 (Real.log (a2 / defaultCfg.large_amount_threshold + 1)) :=
        le_min (by norm_num) (Real.log_nonneg (by linarith))
      exact mul_nonneg (mul_nonneg hmin hw04) (by norm_num)
    · rw [if_neg h2]

/-- C9: with country, merchant and timestamp held fixed, the canonical
`scoreTransaction` is monotone non-decreasing in the (numeric) amount. -/
theorem c9_score_monotone_in_amount (country merchant ts : JSValue) (a1 a2 : ℝ)
    (hle : a1 ≤ a2) (r1 r2 : ℝ)
    (h1 : scoreTransaction defaultCfg ⟨.num (.val a1), country, merchant, ts⟩ = .ok r1)
    (h2 : scoreTransaction defaultCfg ⟨.num (.val a2), country, merchant, ts⟩ = .ok r2) :
    r1 ≤ r2 := by
  cases hc : jsOrStrLower country with
  | error e =>
    cases e
    rw [scoreTransaction_error_left defaultCfg _ hc] at h1
    simp at h1
  | ok c =>
    cases hm : jsOrStrLower merchant with
    | error e =>
      cases e
      rw [scoreTransaction_error_right defaultCfg _ hm] at h1
      simp at h1
    | ok m =>
      rw [scoreTransaction_eq_ok defaultCfg _ c m hc hm] at h1 h2
      injection h1 with h1
      injection h2 with h2
      subst h1
      subst h2
      have hA1 : amountOf (JSValue.num (.val a1)) = .val a1 := rfl
      have hA2 : amountOf (JSValue.num (.val a2)) = .val a2 := rfl
      rw [hA1, hA2]
      apply min_le_min (le_refl (100:ℝ))
      apply jsRound2_mono
      have := largeAmountContrib_mono hle
      linarith

lemma scoreTransaction_smallAmount (a : ℝ)
    (ha : ¬ defaultCfg.large_amount_threshold ≤ a) :
    scoreTransaction defaultCfg ⟨.num (.val a), .undef, .undef, .undef⟩ = .ok 0 := by
  rw [scoreTransaction_eq_ok defaultCfg ⟨.num (.val a), .undef, .undef, .undef⟩ "" "" rfl rfl]
  have h1 : largeAmountContrib defaultCfg (amountOf (JSValue.num (.val a))) = 0 := by
    rw [show amountOf (JSValue.num (.val a)) = .val a from rfl]
    simp only [largeAmountContrib, if_neg ha]
  have hfl : ⌊(2⁻¹ : ℝ)⌋ = (0:ℤ) := by
    apply Int.floor_eq_iff.mpr
    constructor <;> norm_num
  simp [h1, jsDateHours, merchant_blacklist, jsRound2]
  rw [hfl]
  norm_num

/-- Witness for C9: amounts 1 ≤ 2 (both below the threshold) score 0 ≤ 0. -/
theorem c9_score_monotone_in_amount_witness :
    (1:ℝ) ≤ 2 ∧
      scoreTransaction defaultCfg ⟨.num (.val 1), .undef, .undef, .undef⟩ = .ok 0 ∧
      scoreTransaction defaultCfg ⟨.num (.val 2), .undef, .undef, .undef⟩ = .ok 0 ∧
      (0:ℝ) ≤ 0 := by
  have e1 : scoreTransaction defaultCfg ⟨.num (.val 1), .undef, .undef, .undef⟩ = .ok 0 :=
    scoreTransaction_smallAmount 1 (by norm_num [defaultCfg])
  have e2 : scoreTransaction defaultCfg ⟨.num (.val 2), .undef, .undef, .undef⟩ = .ok 0 :=
    scoreTransaction_smallAmount 2 (by norm_num [defaultCfg])
  exact ⟨by norm_num, e1, e2,
    c9_score_monotone_in_amount .undef .undef .undef 1 2 (by norm_num) 0 0 e1 e2⟩

lemma any_and_const (l : List String) (f : String → Bool) (c : Bool) :
    l.any (fun t => f t && c) = (l.any f && c) := by
  induction l with
  | nil => simp
  | cons a l ih =>
    simp only [List.any_cons, ih]
    cases c <;> cases f a <;> simp

/-- C3: `pickByTokens` returns the trimmed value of the *first column* (in the
row's original column order) whose non-empty normalized header contains any of
the field's tokens and whose value is non-blank after trimming — equivalently,
it is `List.find?` over the columns with that per-column predicate, so ties are
broken by column order alone, never by a token's position in the token list. -/
theorem c3_pickByTokens_first_matching_column (tokens : List String) (row : Row) :
    pickByTokens tokens row =
      (row.find? (fun kv => !(kv.1 = "") &&
          (tokens.any (fun t => jsIncludes kv.1 t) && !(jsTrim kv.2 = "")))).map
        (fun kv => jsTrim kv.2) := by
  induction row with
  | nil => rfl
  | cons kv rest ih =>
    obtain ⟨k, v⟩ := kv
    by_cases hk : k = ""
    · subst hk
      rw [pickByTokens, if_pos rfl, ih]
      have hfind : List.find? (fun kv : String × String => !(kv.1 = "") &&
          (tokens.any (fun t => jsIncludes kv.1 t) && !(jsTrim kv.2 = "")))
          (("", v) :: rest)
          = List.find? (fun kv : String × String => !(kv.1 = "") &&
              (tokens.any (fun t => jsIncludes kv.1 t) && !(jsTrim kv.2 = ""))) rest := by
        apply List.find?_cons_of_neg
        simp
      rw [hfind]
    · rw [pickByTokens, if_neg hk]
      rw [any_and_const tokens (fun t => jsIncludes k t) (!(jsTrim v = ""))]
      by_cases hc : ((tokens.any (fun t => jsIncludes k t)) && !(jsTrim v = "")) = true
      · rw [if_pos hc]
        have hfind : List.find? (fun kv : String × String => !(kv.1 = "") &&
            (tokens.any (fun t => jsIncludes kv.1 t) && !(jsTrim kv.2 = "")))
            ((k, v) :: rest) = some (k, v) := by
          apply List.find?_cons_of_pos
          simp only [Bool.and_eq_true]
          refine ⟨by simpa using hk, by simpa using hc⟩
        rw [hfind]
        rfl
      · rw [if_neg hc, ih]
        have hfind : List.find? (fun kv : String × String => !(kv.1 = "") &&
            (tokens.any (fun t => jsIncludes kv.1 t) && !(jsTrim kv.2 = "")))
            ((k, v) :: rest)
            = List.find? (fun kv : String × String => !(kv.1 = "") &&
                (tokens.any (fun t => jsIncludes kv.1 t) && !(jsTrim kv.2 = ""))) rest := by
          apply List.find?_cons_of_neg
          intro hcontra
          rw [Bool.and_eq_true] at hcontra
          exact hc hcontra.2
        rw [hfind]

lemma suspContrib_unknown : suspContrib "unknown" = 0.25 := by
  have h1 : jsIncludes "unknown" "casino" = false := by rfl
  have h2 : jsIncludes "unknown" "bet" = false := by rfl
  have h3 : jsIncludes "unknown" "lottery" = false := by rfl
  have h4 : jsIncludes "unknown" "unknown" = true := by rfl
  have h5 : jsIncludes "unknown" "transfer" = false := by rfl
  unfold suspContrib suspiciousList
  simp only [List.foldl_cons, List.foldl_nil, h1, h2, h3, h4, h5]
  norm_num

/-- C10: the [0,1] estimator's suspicious-merchant list contains `"unknown"`
(matched by substring via `includes`), and `"unknown"` is exactly the default
merchant the CSV mapping assigns when no merchant column matches — so every
transaction ingested without a usable merchant column gets a suspicious-merchant
contribution of at least 0.25 under that variant. -/
theorem c10_default_merchant_is_suspicious (env : WorkerEnv) (uid tid : String) (row : Row)
    (hpick : pickByTokens merchantTokens row = none) :
    (resolveRow env uid tid row).merchant = some "unknown" ∧
    "unknown" ∈ suspiciousList ∧
    (0.25 : ℝ) ≤ suspContrib (jsToLower ((resolveRow env uid tid row).merchant.getD "")) := by
  have hm : (resolveRow env uid tid row).merchant = some "unknown" := by
    unfold resolveRow
    rw [hpick]
    rfl
  refine ⟨hm, by simp [suspiciousList], ?_⟩
  rw [hm]
  have hlower : jsToLower "unknown" = "unknown" := by rfl
  rw [show (some "unknown").getD "" = "unknown" from rfl, hlower, suspContrib_unknown]

/-- Witness for C10: the empty row has no merchant column at all. -/
theorem c10_default_merchant_is_suspicious_witness :
    pickByTokens merchantTokens [] = none ∧
      ((resolveRow ⟨fun _ => false, fun _ => "", 0⟩ "u" "t" []).merchant = some "unknown" ∧
        "unknown" ∈ suspiciousList ∧
        (0.25 : ℝ) ≤ suspContrib (jsToLower
          ((resolveRow ⟨fun _ => false, fun _ => "", 0⟩ "u" "t" []).merchant.getD ""))) :=
  ⟨rfl, c10_default_merchant_is_suspicious ⟨fun _ => false, fun _ => "", 0⟩ "u" "t" [] rfl⟩

/-! ## Helper lemmas about the job pipeline state -/

lemma jobs_applyOp_statusFree (db : DB) (op : DBOp) (h : statusFree op) :
    (applyOp db op).jobs = db.jobs := by
  cases op with
  | setStatus i s => exact absurd h (by simp [statusFree])
  | insertTxn t => rfl
  | setScore i r => rfl
  | deleteFile p => rfl

lemma statusOf_applyOp_statusFree (db : DB) (op : DBOp) (i : String) (h : statusFree op) :
    statusOf (applyOp db op) i = statusOf db i := by
  unfold statusOf
  rw [jobs_applyOp_statusFree db op h]

lemma find?_map_setStatus (l : List JobRec) (i : String) (s : JobStatus) :
    (l.map (fun j => if j.id = i then { j with status := s } else j)).find?
        (fun j => j.id = i)
      = (l.find? (fun j => j.id = i)).map (fun j => { j with status := s }) := by
  induction l with
  | nil => rfl
  | cons j rest ih =>
    by_cases hj : j.id = i
    · simp [hj]
    · simp [hj, ih]

lemma statusOf_setStatus_self (db : DB) (i : String) (s : JobStatus) :
    statusOf (applyOp db (.setStatus i s)) i = (statusOf db i).map (fun _ => s) := by
  unfold statusOf applyOp
  rw [find?_map_setStatus]
  cases db.jobs.find? (fun j => j.id = i) <;> rfl

lemma find?_map_setStatus_other (l : List JobRec) (i q : String) (s : JobStatus)
    (h : q ≠ i) :
    (l.map (fun j => if j.id = i then { j with status := s } else j)).find?
        (fun j => j.id = q)
      = l.find? (fun j => j.id = q) := by
  induction l with
  | nil => rfl
  | cons j rest ih =>
    rw [List.map_cons]
    by_cases hj : j.id = i
    · have hq : ¬ j.id = q := fun hq => h (by rw [← hq, hj])
      rw [if_pos hj, List.find?_cons, List.find?_cons]
      have e1 : (decide (({ j with status := s } : JobRec).id = q)) = false :=
        decide_eq_false hq
      rw [e1]
      exact ih
    · rw [if_neg hj, List.find?_cons, List.find?_cons]
      by_cases hq : j.id = q
      · rw [decide_eq_true hq]
      · rw [decide_eq_false hq]
        exact ih

lemma statusOf_setStatus_other (db : DB) (i q : String) (s : JobStatus) (h : q ≠ i) :
    statusOf (applyOp db (.setStatus i s)) q = statusOf db q := by
  unfold statusOf applyOp
  rw [find?_map_setStatus_other _ _ _ _ h]

lemma find?_id_isSome {l : List JobRec} {i : String}
    (h : i ∈ l.map (fun j => j.id)) : ∃ j, l.find? (fun j => j.id = i) = some j := by
  induction l with
  | nil => simp at h
  | cons j rest ih =>
    by_cases hj : j.id = i
    · exact ⟨j, by simp [hj]⟩
    · rw [List.map_cons, List.mem_cons] at h
      rcases h with h | h
      · exact absurd h.symm hj
      · obtain ⟨k, hk⟩ := ih h
        exact ⟨k, by simp [hj, hk]⟩

lemma statusOf_isSome_of_mem (db : DB) (i : String) (h : i ∈ db.jobs.map (fun j => j.id)) :
    ∃ c, statusOf db i = some c := by
  obtain ⟨j, hj⟩ := find?_id_isSome h
  exact ⟨j.status, by unfold statusOf; rw [hj]; rfl⟩

lemma find?_of_mem_nodup {l : List JobRec} {j : JobRec} (hmem : j ∈ l)
    (hnd : (l.map (fun k => k.id)).Nodup) : l.find? (fun k => k.id = j.id) = some j := by
  induction l with
  | nil => simp at hmem
  | cons a rest ih =>
    rw [List.map_cons, List.nodup_cons] at hnd
    rcases List.mem_cons.mp hmem with rfl | hmem'
    · simp
    · have hane : ¬ a.id = j.id := by
        intro he
        exact hnd.1 (he ▸ List.mem_map_of_mem _ hmem')
      simp [hane, ih hmem' hnd.2]

lemma statusOf_of_mem_nodup {db : DB} {j : JobRec} (hmem : j ∈ db.jobs)
    (hnd : (db.jobs.map (fun k => k.id)).Nodup) : statusOf db j.id = some j.status := by
  unfold statusOf
  rw [find?_of_mem_nodup hmem hnd]
  rfl

lemma jobsIds_map_setStatus (l : List JobRec) (i : String) (s : JobStatus) :
    (l.map (fun j => if j.id = i then { j with status := s } else j)).map (fun j => j.id)
      = l.map (fun j => j.id) := by
  induction l with
  | nil => rfl
  | cons j rest ih =>
    by_cases hj : j.id = i <;> simp [hj, ih]

lemma jobsIds_applyOp (db : DB) (op : DBOp) :
    (applyOp db op).jobs.map (fun j => j.id) = db.jobs.map (fun j => j.id) := by
  cases op with
  | setStatus i s => exact jobsIds_map_setStatus db.jobs i s
  | insertTxn t => rfl
  | setScore i r => rfl
  | deleteFile p => rfl

lemma jobsIds_applyOps (db : DB) (ops : List DBOp) :
    (applyOps db ops).jobs.map (fun j => j.id) = db.jobs.map (fun j => j.id) := by
  induction ops generalizing db with
  | nil => rfl
  | cons op rest ih => rw [applyOps, List.foldl_cons, ← applyOps, ih, jobsIds_applyOp]

lemma failedShape (jid : String) :
    statusTerminalShape jid [DBOp.setStatus jid .failed] :=
  ⟨[], .failed, rfl, by intro op hop; simp at hop, Or.inr rfl⟩

lemma processParseCsvJob_shape (env : WorkerEnv) (db : DB) (job : JobRec) :
    statusTerminalShape job.id (processParseCsvJob env db job) := by
  unfold processParseCsvJob
  cases job.pUser with
  | none => exact failedShape job.id
  | some uid =>
    cases job.pPath with
    | none => exact failedShape job.id
    | some path =>
      dsimp only
      cases db.files.lookup path with
      | none => exact failedShape job.id
      | some records =>
        refine ⟨(rowTxns env uid records.enum).map DBOp.insertTxn ++ [DBOp.deleteFile path],
          .done, by simp, ?_, Or.inl rfl⟩
        intro op hop
        rcases List.mem_append.mp hop with hop | hop
        · obtain ⟨t, _, rfl⟩ := List.mem_map.mp hop
          trivial
        · rcases List.mem_singleton.mp hop with rfl
          trivial

lemma processRescoreJob_shape (db : DB) (job : JobRec) :
    statusTerminalShape job.id (processRescoreJob db job) := by
  unfold processRescoreJob
  cases job.pUser with
  | none => exact failedShape job.id
  | some uid =>
    refine ⟨(db.transactions.filter (fun t => t.user_id = uid)).map
      (fun t => DBOp.setScore t.id (scoreTxn t)), .done, rfl, ?_, Or.inl rfl⟩
    intro op hop
    obtain ⟨t, _, rfl⟩ := List.mem_map.mp hop
    trivial

lemma jobOps_shape (env : WorkerEnv) (db : DB) (job : JobRec) :
    statusTerminalShape job.id (jobOps env db job) := by
  unfold jobOps
  by_cases h1 : job.jtype = "parse_csv"
  · rw [if_pos h1]
    exact processParseCsvJob_shape env db job
  · rw [if_neg h1]
    by_cases h2 : job.jtype = "rescore_all"
    · rw [if_pos h2]
      exact processRescoreJob_shape db job
    · rw [if_neg h2]
      exact failedShape job.id

lemma statusOf_applyOps_statusFree (db : DB) (ops : List DBOp) (i : String)
    (h : ∀ op ∈ ops, statusFree op) :
    statusOf (applyOps db ops) i = statusOf db i := by
  induction ops generalizing db with
  | nil => rfl
  | cons op rest ih =>
    rw [applyOps, List.foldl_cons, ← applyOps, ih _ (fun o ho => h o (List.mem_cons_of_mem _ ho)),
      statusOf_applyOp_statusFree _ _ _ (h op (List.mem_cons_self _ _))]

lemma transactions_applyOps_statusOps (db : DB) (ops : List DBOp)
    (h : ∀ op ∈ ops, ∃ i s, op = DBOp.setStatus i s) :
    (applyOps db ops).transactions = db.transactions := by
  induction ops generalizing db with
  | nil => rfl
  | cons op rest ih =>
    rw [applyOps, List.foldl_cons, ← applyOps,
      ih _ (fun o ho => h o (List.mem_cons_of_mem _ ho))]
    obtain ⟨i, s, rfl⟩ := h op (List.mem_cons_self _ _)
    rfl

/-- After the writes of a job whose shape is `statusTerminalShape jid`, starting
from a state where the job is `processing`, the job's status is the terminal
status and every other job's status is unchanged. -/
lemma statusOf_applyOps_shape (db : DB) (jid : String) (ops : List DBOp) (pre : List DBOp)
    (s : JobStatus) (hops : ops = pre ++ [DBOp.setStatus jid s])
    (hpre : ∀ op ∈ pre, statusFree op) (q : String) :
    statusOf (applyOps db ops) q =
      if q = jid then (statusOf db jid).map (fun _ => s) else statusOf db q := by
  subst hops
  rw [show applyOps db (pre ++ [DBOp.setStatus jid s])
      = applyOp (applyOps db pre) (DBOp.setStatus jid s) from by
    unfold applyOps
    rw [List.foldl_append]
    rfl]
  by_cases hq : q = jid
  · subst hq
    rw [if_pos rfl, statusOf_setStatus_self, statusOf_applyOps_statusFree db pre q hpre]
  · rw [if_neg hq, statusOf_setStatus_other _ _ _ _ hq,
      statusOf_applyOps_statusFree db pre q hpre]

lemma insertByCreated_perm (j : JobRec) (l : List JobRec) :
    (insertByCreated j l).Perm (j :: l) := by
  induction l with
  | nil => exact List.Perm.refl _
  | cons k rest ih =>
    rw [insertByCreated]
    by_cases h : j.createdAt < k.createdAt
    · rw [if_pos h]
    · rw [if_neg h]
      exact (ih.cons k).trans (List.Perm.swap j k rest)

lemma sortByCreated_perm (l : List JobRec) : (sortByCreated l).Perm l := by
  induction l with
  | nil => exact List.Perm.refl _
  | cons j rest ih =>
    rw [sortByCreated]
    exact (insertByCreated_perm j (sortByCreated rest)).trans (ih.cons j)

lemma claimBatch_mem (db : DB) {j : JobRec} (hj : j ∈ claimBatch db) :
    j ∈ db.jobs ∧ j.status = .pending := by
  unfold claimBatch at hj
  have h1 : j ∈ sortByCreated (db.jobs.filter (fun j => j.status == JobStatus.pending)) :=
    (List.take_sublist _ _).subset hj
  have h2 : j ∈ db.jobs.filter (fun j => j.status == JobStatus.pending) :=
    (sortByCreated_perm _).subset h1
  have h3 := List.mem_filter.mp h2
  exact ⟨h3.1, by simpa using h3.2⟩

lemma claimBatch_nodupIds (db : DB) (hnd : (db.jobs.map (fun j => j.id)).Nodup) :
    ((claimBatch db).map (fun j => j.id)).Nodup := by
  have h1 : ((db.jobs.filter (fun j => j.status == JobStatus.pending)).map
      (fun j => j.id)).Nodup :=
    ((List.filter_sublist _).map _).nodup hnd
  have h2 : ((sortByCreated (db.jobs.filter (fun j => j.status == JobStatus.pending))).map
      (fun j => j.id)).Nodup :=
    (((sortByCreated_perm _).map _).nodup_iff).mpr h1
  exact ((List.take_sublist _ _).map _).nodup h2

/-- Every claimed job was `pending` when selected: the claim query filters on
`status='pending'`, so a job already claimed (`processing`) is never selected. -/
lemma claimBatch_pending (db : DB) (hnd : (db.jobs.map (fun j => j.id)).Nodup) :
    ∀ j ∈ claimBatch db, statusOf db j.id = some .pending := by
  intro j hj
  obtain ⟨hmem, hpend⟩ := claimBatch_mem db hj
  rw [statusOf_of_mem_nodup hmem hnd, hpend]

lemma forwardRun_append (db : DB) (ops1 ops2 : List DBOp) :
    ForwardRun db (ops1 ++ ops2) ↔
      ForwardRun db ops1 ∧ ForwardRun (applyOps db ops1) ops2 := by
  induction ops1 generalizing db with
  | nil =>
    rw [List.nil_append]
    show ForwardRun db ops2 ↔ True ∧ ForwardRun db ops2
    tauto
  | cons op rest ih =>
    rw [List.cons_append]
    show (_ ∧ ForwardRun (applyOp db op) (rest ++ ops2)) ↔
      (_ ∧ ForwardRun (applyOp db op) rest) ∧ _
    rw [ih]
    rw [show applyOps db (op :: rest) = applyOps (applyOp db op) rest from rfl]
    tauto

lemma forwardRun_statusFree (db : DB) (ops : List DBOp)
    (h : ∀ op ∈ ops, statusFree op) : ForwardRun db ops := by
  induction ops generalizing db with
  | nil => trivial
  | cons op rest ih =>
    refine ⟨?_, ih _ (fun o ho => h o (List.mem_cons_of_mem _ ho))⟩
    intro i s hop
    have hf := h op (List.mem_cons_self _ _)
    rw [hop] at hf
    exact absurd hf (by simp [statusFree])

lemma forwardRun_shape (db : DB) (jid : String) (ops pre : List DBOp) (s : JobStatus)
    (hops : ops = pre ++ [DBOp.setStatus jid s]) (hpre : ∀ op ∈ pre, statusFree op)
    (hterm : s = JobStatus.done ∨ s = JobStatus.failed)
    (hstat : statusOf db jid = some .processing) : ForwardRun db ops := by
  subst hops
  rw [forwardRun_append]
  refine ⟨forwardRun_statusFree db pre hpre, ?_, trivial⟩
  intro i s' hop
  injection hop with h1 h2
  subst h1
  subst h2
  refine ⟨.processing, ?_, ?_⟩
  · rw [statusOf_applyOps_statusFree db pre jid hpre]
    exact hstat
  · rcases hterm with rfl | rfl <;> rfl

lemma runOps_forward (env : WorkerEnv) (js : List JobRec) :
    ∀ (db : DB), (∀ j ∈ js, statusOf db j.id = some .pending) →
    ((js.map (fun j => j.id)).Nodup) →
    ForwardRun db (runOps env db js) := by
  induction js with
  | nil =>
    intro db _ _
    exact trivial
  | cons j rest ih =>
    intro db hpend hnd
    rw [runOps]
    refine ⟨?_, ?_⟩
    · intro i s hop
      injection hop with h1 h2
      subst h1
      subst h2
      exact ⟨.pending, hpend j (List.mem_cons_self _ _), rfl⟩
    · have hj1 : statusOf (applyOp db (DBOp.setStatus j.id .processing)) j.id
          = some .processing := by
        rw [statusOf_setStatus_self, hpend j (List.mem_cons_self _ _)]
        rfl
      obtain ⟨pre, s, hops, hpre, hterm⟩ :=
        jobOps_shape env (applyOp db (DBOp.setStatus j.id .processing)) j
      rw [forwardRun_append]
      constructor
      · exact forwardRun_shape _ j.id _ pre s hops hpre hterm hj1
      · rw [List.map_cons, List.nodup_cons] at hnd
        apply ih
        · intro j' hj'
          have hne : j'.id ≠ j.id := by
            intro he
            exact hnd.1 (he ▸ List.mem_map_of_mem _ hj')
          rw [statusOf_applyOps_shape _ j.id _ pre s hops hpre j'.id, if_neg hne,
            statusOf_setStatus_other db j.id j'.id _ hne]
          exact hpend j' (List.mem_cons_of_mem _ hj')
        · exact hnd.2

/-- C5: in one worker pass over a database with unique job ids, (a) only jobs
whose status is `pending` are ever selected for processing (a job already
claimed as `processing` is never selected again), and (b) every status write the
pass performs, at the moment it is applied, moves the targeted job strictly
forward along `pending → processing → {done, failed}` — in particular there is
no transition back to `pending` and none out of `done` or `failed`. -/
theorem c5_job_status_monotone (env : WorkerEnv) (db : DB)
    (hnd : (db.jobs.map (fun j => j.id)).Nodup) :
    (∀ j ∈ claimBatch db, statusOf db j.id = some .pending) ∧
    ForwardRun db (runOps env db (claimBatch db)) :=
  ⟨claimBatch_pending db hnd,
    runOps_forward env (claimBatch db) db (claimBatch_pending db hnd)
      (claimBatch_nodupIds db hnd)⟩

/-- Witness for C5: a one-job database (an unknown-type pending job). -/
theorem c5_job_status_monotone_witness :
    (∀ j ∈ claimBatch ⟨[⟨"j1", "bogus", none, none, .pending, 0⟩], [], []⟩,
        statusOf ⟨[⟨"j1", "bogus", none, none, .pending, 0⟩], [], []⟩ j.id
          = some .pending) ∧
    ForwardRun ⟨[⟨"j1", "bogus", none, none, .pending, 0⟩], [], []⟩
      (runOps ⟨fun _ => false, fun _ => "x", 0⟩
        ⟨[⟨"j1", "bogus", none, none, .pending, 0⟩], [], []⟩
        (claimBatch ⟨[⟨"j1", "bogus", none, none, .pending, 0⟩], [], []⟩)) :=
  c5_job_status_monotone ⟨fun _ => false, fun _ => "x", 0⟩
    ⟨[⟨"j1", "bogus", none, none, .pending, 0⟩], [], []⟩ (by simp)

lemma transactions_applyOps_inserts (db : DB) (ts : List Txn) :
    (applyOps db (ts.map DBOp.insertTxn)).transactions = db.transactions ++ ts := by
  induction ts generalizing db with
  | nil => simp [applyOps]
  | cons t rest ih =>
    rw [List.map_cons, applyOps, List.foldl_cons, ← applyOps, ih]
    simp [applyOp]

lemma rowTxns_eq_filter_map (env : WorkerEnv) (uid : String) (l : List (ℕ × Row)) :
    rowTxns env uid l = (l.filter (fun p => !env.rowFail p.1)).map
      (fun p => resolveRow env uid (env.ids p.1) p.2) := by
  induction l with
  | nil => rfl
  | cons p rest ih =>
    rw [rowTxns]
    by_cases h : env.rowFail p.1
    · rw [if_pos h, ih, List.filter_cons]
      simp [h]
    · rw [if_neg h, ih, List.filter_cons]
      simp [h]

/-- C4: for a `parse_csv` job with a well-formed payload and a readable file, a
row-level exception (`env.rowFail`) is caught per row: exactly the surviving
rows' transactions are inserted, in order, and the job is still marked `done`.
A 3-row file with one corrupt row therefore yields 2 inserts and status `done`
(see the witness). -/
theorem c4_row_failure_skips_only_that_row (env : WorkerEnv) (db : DB) (job : JobRec)
    (uid path : String) (records : List Row)
    (ht : job.jtype = "parse_csv") (hu : job.pUser = some uid)
    (hp : job.pPath = some path) (hf : db.files.lookup path = some records)
    (hmem : job.id ∈ db.jobs.map (fun j => j.id)) :
    statusOf (applyOps db (jobOps env db job)) job.id = some .done ∧
    (applyOps db (jobOps env db job)).transactions
      = db.transactions ++ (records.enum.filter (fun p => !env.rowFail p.1)).map
          (fun p => resolveRow env uid (env.ids p.1) p.2) := by
  have hops : jobOps env db job = (rowTxns env uid records.enum).map DBOp.insertTxn
      ++ [DBOp.deleteFile path, DBOp.setStatus job.id .done] := by
    unfold jobOps
    rw [if_pos ht]
    unfold processParseCsvJob
    rw [hu, hp]
    dsimp only
    rw [hf]
  have hsplit : (rowTxns env uid records.enum).map DBOp.insertTxn
      ++ [DBOp.deleteFile path, DBOp.setStatus job.id .done]
      = ((rowTxns env uid records.enum).map DBOp.insertTxn ++ [DBOp.deleteFile path])
        ++ [DBOp.setStatus job.id .done] := by simp
  have hpre : ∀ op ∈ (rowTxns env uid records.enum).map DBOp.insertTxn
      ++ [DBOp.deleteFile path], statusFree op := by
    intro op hop
    rcases List.mem_append.mp hop with hop | hop
    · obtain ⟨t, _, rfl⟩ := List.mem_map.mp hop
      trivial
    · rcases List.mem_singleton.mp hop with rfl
      trivial
  constructor
  · obtain ⟨c, hc⟩ := statusOf_isSome_of_mem db job.id hmem
    rw [hops, statusOf_applyOps_shape db job.id _ _ .done hsplit hpre job.id,
      if_pos rfl, hc]
    rfl
  · have hfold : applyOps db ((rowTxns env uid records.enum).map DBOp.insertTxn
        ++ [DBOp.deleteFile path, DBOp.setStatus job.id .done])
        = applyOp (applyOp (applyOps db ((rowTxns env uid records.enum).map DBOp.insertTxn))
            (DBOp.deleteFile path)) (DBOp.setStatus job.id .done) := by
      unfold applyOps
      rw [List.foldl_append]
      rfl
    rw [hops, hfold]
    have h1 : (applyOp (applyOp (applyOps db ((rowTxns env uid
        records.enum).map DBOp.insertTxn)) (DBOp.deleteFile path))
        (DBOp.setStatus job.id .done)).transactions
        = (applyOps db ((rowTxns env uid records.enum).map DBOp.insertTxn)).transactions := rfl
    rw [h1, transactions_applyOps_inserts, rowTxns_eq_filter_map]

/-- Witness for C4: a 3-row CSV whose middle row raises still inserts the other
2 rows' transactions and the job ends `done`. -/
theorem c4_row_failure_skips_only_that_row_witness :
    jobC4.jtype = "parse_csv" ∧ jobC4.pUser = some "u1" ∧ jobC4.pPath = some "f.csv" ∧
    dbC4.files.lookup "f.csv" = some rowsC4 ∧
    jobC4.id ∈ dbC4.jobs.map (fun j => j.id) ∧
    (statusOf (applyOps dbC4 (jobOps envC4 dbC4 jobC4)) jobC4.id = some .done ∧
      (applyOps dbC4 (jobOps envC4 dbC4 jobC4)).transactions
        = dbC4.transactions ++ (rowsC4.enum.filter (fun p => !envC4.rowFail p.1)).map
            (fun p => resolveRow envC4 "u1" (envC4.ids p.1) p.2)) ∧
    ((rowsC4.enum.filter (fun p => !envC4.rowFail p.1)).map
        (fun p => resolveRow envC4 "u1" (envC4.ids p.1) p.2)).length = 2 :=
  ⟨rfl, rfl, rfl, rfl, by simp [dbC4, jobC4],
    c4_row_failure_skips_only_that_row envC4 dbC4 jobC4 "u1" "f.csv" rowsC4
      rfl rfl rfl rfl (by simp [dbC4, jobC4]),
    by rfl⟩

lemma map_congr_on {α β : Type _} (l : List α) (f g : α → β)
    (h : ∀ a ∈ l, f a = g a) : l.map f = l.map g := by
  induction l with
  | nil => rfl
  | cons a rest ih =>
    rw [List.map_cons, List.map_cons, h a (List.mem_cons_self _ _),
      ih (fun b hb => h b (List.mem_cons_of_mem _ hb))]

lemma txn_eq_of_mem_nodup {l : List Txn} (hnd : (l.map (fun t => t.id)).Nodup)
    {u t : Txn} (hu : u ∈ l) (ht : t ∈ l) (h : u.id = t.id) : u = t := by
  induction l with
  | nil => simp at hu
  | cons a rest ih =>
    rw [List.map_cons, List.nodup_cons] at hnd
    rcases List.mem_cons.mp hu with rfl | hu'
    · rcases List.mem_cons.mp ht with rfl | ht'
      · rfl
      · exact absurd (h ▸ List.mem_map_of_mem (fun t => t.id) ht') hnd.1
    · rcases List.mem_cons.mp ht with rfl | ht'
      · exact absurd (by rw [← h]; exact List.mem_map_of_mem (fun t => t.id) hu') hnd.1
      · exact ih hnd.2 hu' ht'

lemma scoreTxn_set_risk (t : Txn) (r : JSNum) :
    scoreTxn { t with risk_score := r } = scoreTxn t := rfl

lemma transactions_applyOp_setScore (db : DB) (i : String) (r : JSNum) :
    (applyOp db (.setScore i r)).transactions
      = db.transactions.map (fun t => if t.id = i then { t with risk_score := r } else t) :=
  rfl

lemma applyOps_setScores (ts : List Txn) : ∀ (db : DB),
    (∀ t ∈ ts, ∀ u ∈ db.transactions, u.id = t.id → scoreTxn u = scoreTxn t) →
    ((ts.map (fun t => t.id)).Nodup) →
    (applyOps db (ts.map (fun t => DBOp.setScore t.id (scoreTxn t)))).transactions
      = db.transactions.map (fun u => if u.id ∈ ts.map (fun t => t.id)
          then { u with risk_score := scoreTxn u } else u) := by
  induction ts with
  | nil =>
    intro db _ _
    simp [applyOps]
  | cons t rest ih =>
    intro db hts htsnd
    rw [List.map_cons, List.nodup_cons] at htsnd
    rw [List.map_cons, applyOps, List.foldl_cons, ← applyOps]
    have hts1 : ∀ t' ∈ rest, ∀ u ∈ (applyOp db (DBOp.setScore t.id
        (scoreTxn t))).transactions, u.id = t'.id → scoreTxn u = scoreTxn t' := by
      intro t' ht' u hu hid
      rw [transactions_applyOp_setScore] at hu
      obtain ⟨u0, hu0, rfl⟩ := List.mem_map.mp hu
      have hidu : (if u0.id = t.id then { u0 with risk_score := scoreTxn t } else u0).id
          = u0.id := by
        by_cases h0 : u0.id = t.id <;> simp [h0]
      have hsc : scoreTxn (if u0.id = t.id then { u0 with risk_score := scoreTxn t } else u0)
          = scoreTxn u0 := by
        by_cases h0 : u0.id = t.id
        · rw [if_pos h0]
          exact scoreTxn_set_risk u0 (scoreTxn t)
        · rw [if_neg h0]
      rw [hsc]
      exact hts t' (List.mem_cons_of_mem _ ht') u0 hu0 (by rw [← hidu]; exact hid)
    rw [ih (applyOp db (DBOp.setScore t.id (scoreTxn t))) hts1 htsnd.2]
    rw [transactions_applyOp_setScore, List.map_map]
    apply map_congr_on
    intro u hu
    show (fun u => if u.id ∈ rest.map (fun t => t.id)
        then { u with risk_score := scoreTxn u } else u)
      ((fun t' => if t'.id = t.id then { t' with risk_score := scoreTxn t } else t') u)
      = _
    rw [List.map_cons]
    by_cases h0 : u.id = t.id
    · have hscu : scoreTxn u = scoreTxn t := hts t (List.mem_cons_self _ _) u hu h0
      have e1 : (if u.id = t.id then { u with risk_score := scoreTxn t } else u)
          = { u with risk_score := scoreTxn t } := if_pos h0
      have e2 : ({ u with risk_score := scoreTxn t } : Txn).id ∉ rest.map (fun t => t.id) := by
        show u.id ∉ rest.map (fun t => t.id)
        rw [h0]
        exact htsnd.1
      have e3 : u.id ∈ t.id :: rest.map (fun t => t.id) := by
        rw [h0]
        exact List.mem_cons_self _ _
      simp only [e1, if_neg e2, if_pos e3]
      rw [hscu]
    · have e1 : (if u.id = t.id then { u with risk_score := scoreTxn t } else u) = u :=
        if_neg h0
      have e2 : (u.id ∈ t.id :: rest.map (fun t => t.id))
          ↔ (u.id ∈ rest.map (fun t => t.id)) := by
        rw [List.mem_cons]
        exact ⟨fun h => h.elim (fun he => absurd he h0) id, Or.inr⟩
      simp only [e1]
      rw [if_congr e2 rfl rfl]

lemma rescoreOne_id (uid : String) (u : Txn) : (rescoreOne uid u).id = u.id := by
  unfold rescoreOne
  by_cases hp : u.user_id = uid <;> simp [hp]

lemma rescoreOne_idem (uid : String) (u : Txn) :
    rescoreOne uid (rescoreOne uid u) = rescoreOne uid u := by
  unfold rescoreOne
  by_cases hp : u.user_id = uid
  · rw [if_pos hp, if_pos (show ({ u with risk_score := scoreTxn u } : Txn).user_id = uid
      from hp)]
    rfl
  · rw [if_neg hp, if_neg hp]

lemma txnIds_map_rescoreOne (uid : String) (l : List Txn) :
    (l.map (rescoreOne uid)).map (fun t => t.id) = l.map (fun t => t.id) := by
  induction l with
  | nil => rfl
  | cons u rest ih => simp only [List.map_cons, rescoreOne_id, ih]

lemma processRescoreJob_transactions (db : DB) (job : JobRec) (uid : String)
    (hu : job.pUser = some uid) (hnd : (db.transactions.map (fun t => t.id)).Nodup) :
    (applyOps db (processRescoreJob db job)).transactions
      = db.transactions.map (rescoreOne uid) := by
  unfold processRescoreJob
  rw [hu]
  dsimp only
  have hfold : applyOps db ((db.transactions.filter (fun t => t.user_id = uid)).map
        (fun t => DBOp.setScore t.id (scoreTxn t)) ++ [DBOp.setStatus job.id .done])
      = applyOp (applyOps db ((db.transactions.filter (fun t => t.user_id = uid)).map
          (fun t => DBOp.setScore t.id (scoreTxn t)))) (DBOp.setStatus job.id .done) := by
    unfold applyOps
    rw [List.foldl_append]
    rfl
  rw [hfold]
  have h1 : (applyOp (applyOps db ((db.transactions.filter (fun t => t.user_id = uid)).map
      (fun t => DBOp.setScore t.id (scoreTxn t)))) (DBOp.setStatus job.id .done)).transactions
      = (applyOps db ((db.transactions.filter (fun t => t.user_id = uid)).map
          (fun t => DBOp.setScore t.id (scoreTxn t)))).transactions := rfl
  rw [h1]
  have hts : ∀ t ∈ db.transactions.filter (fun t => t.user_id = uid),
      ∀ u ∈ db.transactions, u.id = t.id → scoreTxn u = scoreTxn t := by
    intro t ht u hu' hid
    have ht' : t ∈ db.transactions := List.mem_of_mem_filter ht
    rw [txn_eq_of_mem_nodup hnd hu' ht' hid]
  have htsnd : ((db.transactions.filter (fun t => t.user_id = uid)).map
      (fun t => t.id)).Nodup := ((List.filter_sublist _).map _).nodup hnd
  rw [applyOps_setScores (db.transactions.filter (fun t => t.user_id = uid)) db hts htsnd]
  apply map_congr_on
  intro u hu'
  have hmem : (u.id ∈ (db.transactions.filter (fun t => t.user_id = uid)).map
      (fun t => t.id)) ↔ u.user_id = uid := by
    constructor
    · intro h
      obtain ⟨t, ht, htid⟩ := List.mem_map.mp h
      have ht' : t ∈ db.transactions := List.mem_of_mem_filter ht
      have := txn_eq_of_mem_nodup hnd hu' ht' htid.symm
      subst this
      simpa using (List.mem_filter.mp ht).2
    · intro h
      exact List.mem_map_of_mem _ (List.mem_filter.mpr ⟨hu', by simpa using h⟩)
  unfold rescoreOne
  rw [if_congr hmem rfl rfl]

/-- C8: running `rescore_all` twice in succession for the same user over an
unchanged transaction table (unique transaction ids) leaves every risk_score
exactly as the first run set it: the second pass recomputes each score from the
same stored fields and writes back the same value. -/
theorem c8_rescore_idempotent (db : DB) (job1 job2 : JobRec) (uid : String)
    (h1 : job1.pUser = some uid) (h2 : job2.pUser = some uid)
    (hnd : (db.transactions.map (fun t => t.id)).Nodup) :
    (applyOps (applyOps db (processRescoreJob db job1))
        (processRescoreJob (applyOps db (processRescoreJob db job1)) job2)).transactions
      = (applyOps db (processRescoreJob db job1)).transactions := by
  have e1 : (applyOps db (processRescoreJob db job1)).transactions
      = db.transactions.map (rescoreOne uid) :=
    processRescoreJob_transactions db job1 uid h1 hnd
  have hnd1 : ((applyOps db (processRescoreJob db job1)).transactions.map
      (fun t => t.id)).Nodup := by
    rw [e1, txnIds_map_rescoreOne]
    exact hnd
  have e2 := processRescoreJob_transactions (applyOps db (processRescoreJob db job1))
    job2 uid h2 hnd1
  rw [e2, e1, List.map_map]
  exact map_congr_on _ _ _ (fun u _ => rescoreOne_idem uid u)

/-- Witness for C8 at a one-transaction database. -/
theorem c8_rescore_idempotent_witness :
    jobC8.pUser = some "u1" ∧ jobC8b.pUser = some "u1" ∧
    (dbC8.transactions.map (fun t => t.id)).Nodup ∧
    (applyOps (applyOps dbC8 (processRescoreJob dbC8 jobC8))
        (processRescoreJob (applyOps dbC8 (processRescoreJob dbC8 jobC8)) jobC8b)).transactions
      = (applyOps dbC8 (processRescoreJob dbC8 jobC8)).transactions :=
  ⟨rfl, rfl, by simp [dbC8], c8_rescore_idempotent dbC8 jobC8 jobC8b "u1" rfl rfl (by simp [dbC8])⟩

lemma applyOp_comm_setStatus (db : DB) (op : DBOp) (i : String) (s : JobStatus)
    (h : notStatusOn i op) :
    applyOp (applyOp db (.setStatus i s)) op
      = applyOp (applyOp db op) (.setStatus i s) := by
  cases op with
  | setStatus q s' =>
    have hqi : q ≠ i := h q s' rfl
    show ({ db with jobs := _ } : DB) = { db with jobs := _ }
    congr 1
    rw [show (applyOp db (DBOp.setStatus i s)).jobs
        = db.jobs.map (fun j => if j.id = i then { j with status := s } else j) from rfl,
      show (applyOp db (DBOp.setStatus q s')).jobs
        = db.jobs.map (fun j => if j.id = q then { j with status := s' } else j) from rfl,
      List.map_map, List.map_map]
    apply map_congr_on
    intro j _
    show (fun j => if j.id = q then { j with status := s' } else j)
        ((fun j => if j.id = i then { j with status := s } else j) j)
      = (fun j => if j.id = i then { j with status := s } else j)
        ((fun j => if j.id = q then { j with status := s' } else j) j)
    by_cases hji : j.id = i
    · have hjq : ¬ j.id = q := fun he => hqi (by rw [← he, hji])
      simp only [if_pos hji, if_neg hjq]
    · by_cases hjq : j.id = q
      · simp only [if_neg hji, if_pos hjq]
      · simp only [if_neg hji, if_neg hjq]
  | insertTxn t => rfl
  | setScore q r => rfl
  | deleteFile p => rfl

lemma applyOps_comm_setStatus (ops : List DBOp) : ∀ (db : DB) (i : String) (s : JobStatus),
    (∀ op ∈ ops, notStatusOn i op) →
    applyOps (applyOp db (.setStatus i s)) ops
      = applyOp (applyOps db ops) (.setStatus i s) := by
  induction ops with
  | nil => intro db i s _; rfl
  | cons op rest ih =>
    intro db i s h
    rw [applyOps, List.foldl_cons, ← applyOps,
      applyOp_comm_setStatus db op i s (h op (List.mem_cons_self _ _)),
      ih (applyOp db op) i s (fun o ho => h o (List.mem_cons_of_mem _ ho))]
    rfl

lemma jobOps_congr (env : WorkerEnv) (db1 db2 : DB) (j : JobRec)
    (ht : db1.transactions = db2.transactions) (hf : db1.files = db2.files) :
    jobOps env db1 j = jobOps env db2 j := by
  unfold jobOps processParseCsvJob processRescoreJob
  rw [ht, hf]

lemma jobOps_notStatusOn (env : WorkerEnv) (db : DB) (j : JobRec) (i : String)
    (hji : j.id ≠ i) : ∀ op ∈ jobOps env db j, notStatusOn i op := by
  obtain ⟨pre, s', hops, hpre, _⟩ := jobOps_shape env db j
  intro op hop
  rw [hops] at hop
  rcases List.mem_append.mp hop with hop | hop
  · intro q s'' he
    have hfr := hpre op hop
    rw [he] at hfr
    exact absurd hfr (by simp [statusFree])
  · rcases List.mem_singleton.mp hop with rfl
    intro q s'' he
    injection he with h1 _
    rw [← h1]
    exact hji

lemma runDB_setStatus_comm (env : WorkerEnv) (js : List JobRec) :
    ∀ (db : DB) (i : String) (s : JobStatus), (∀ j ∈ js, j.id ≠ i) →
    runDB env (applyOp db (.setStatus i s)) js
      = applyOp (runDB env db js) (.setStatus i s) := by
  induction js with
  | nil => intro db i s _; rfl
  | cons j rest ih =>
    intro db i s h
    have hji : j.id ≠ i := h j (List.mem_cons_self _ _)
    rw [runDB, runDB]
    have hC : notStatusOn i (DBOp.setStatus j.id .processing) := by
      intro q s' he
      injection he with h1 _
      rw [← h1]
      exact hji
    rw [applyOp_comm_setStatus db _ i s hC]
    rw [jobOps_congr env
      (applyOp (applyOp db (DBOp.setStatus j.id .processing)) (DBOp.setStatus i s))
      (applyOp db (DBOp.setStatus j.id .processing)) j rfl rfl]
    rw [applyOps_comm_setStatus _ _ i s
      (jobOps_notStatusOn env (applyOp db (DBOp.setStatus j.id .processing)) j i hji)]
    exact ih _ i s (fun j' hj' => h j' (List.mem_cons_of_mem _ hj'))

lemma runDB_append (env : WorkerEnv) (l1 l2 : List JobRec) : ∀ (db : DB),
    runDB env db (l1 ++ l2) = runDB env (runDB env db l1) l2 := by
  induction l1 with
  | nil => intro db; rfl
  | cons j rest ih =>
    intro db
    rw [List.cons_append, runDB, runDB, ih]

lemma jobsIds_runDB (env : WorkerEnv) (js : List JobRec) : ∀ (db : DB),
    (runDB env db js).jobs.map (fun j => j.id) = db.jobs.map (fun j => j.id) := by
  induction js with
  | nil => intro db; rfl
  | cons j rest ih =>
    intro db
    rw [runDB, ih, jobsIds_applyOps, jobsIds_applyOp]

/-- C6: a claimed job of unknown type is marked `failed` without invoking any
processor logic — its dispatch emits exactly one status write and no transaction
read or write — and the rest of the batch is processed exactly as it would be
with the bogus job removed: final transactions are identical and every other
job's status is identical. -/
theorem c6_unknown_type_failed_without_processing (env : WorkerEnv) (db : DB)
    (pre post : List JobRec) (b : JobRec)
    (hnd : (db.jobs.map (fun j => j.id)).Nodup)
    (hsplit : claimBatch db = pre ++ b :: post)
    (hb1 : b.jtype ≠ "parse_csv") (hb2 : b.jtype ≠ "rescore_all") :
    (∀ db' : DB, jobOps env db' b = [DBOp.setStatus b.id .failed]) ∧
    statusOf (workerStep env db) b.id = some .failed ∧
    (workerStep env db).transactions = (runDB env db (pre ++ post)).transactions ∧
    (∀ i, i ≠ b.id → statusOf (workerStep env db) i
      = statusOf (runDB env db (pre ++ post)) i) := by
  have hops : ∀ db' : DB, jobOps env db' b = [DBOp.setStatus b.id .failed] := by
    intro db'
    unfold jobOps
    rw [if_neg hb1, if_neg hb2]
  have hbnd := claimBatch_nodupIds db hnd
  rw [hsplit] at hbnd
  have hpost : ∀ j ∈ post, j.id ≠ b.id := by
    have h1 : ((b :: post).map (fun j => j.id)).Nodup :=
      ((List.sublist_append_right pre (b :: post)).map _).nodup hbnd
    rw [List.map_cons, List.nodup_cons] at h1
    intro j hj he
    exact h1.1 (he ▸ List.mem_map_of_mem _ hj)
  have hbatch : workerStep env db
      = applyOp (applyOp (runDB env (runDB env db pre) post)
          (DBOp.setStatus b.id .processing)) (DBOp.setStatus b.id .failed) := by
    unfold workerStep
    rw [hsplit, runDB_append]
    rw [runDB]
    rw [hops]
    rw [show applyOps (applyOp (runDB env db pre) (DBOp.setStatus b.id .processing))
          [DBOp.setStatus b.id .failed]
        = applyOp (applyOp (runDB env db pre) (DBOp.setStatus b.id .processing))
            (DBOp.setStatus b.id .failed) from rfl]
    rw [runDB_setStatus_comm env post _ b.id .failed hpost,
      runDB_setStatus_comm env post _ b.id .processing hpost]
  have hrhs : runDB env db (pre ++ post) = runDB env (runDB env db pre) post :=
    runDB_append env pre post db
  refine ⟨hops, ?_, ?_, ?_⟩
  · have hbmem : b ∈ db.jobs := (claimBatch_mem db (by
      rw [hsplit]
      exact List.mem_append_right _ (List.mem_cons_self _ _))).1
    have hX : b.id ∈ (runDB env (runDB env db pre) post).jobs.map (fun j => j.id) := by
      rw [jobsIds_runDB, jobsIds_runDB]
      exact List.mem_map_of_mem _ hbmem
    obtain ⟨c, hc⟩ := statusOf_isSome_of_mem _ b.id hX
    rw [hbatch, statusOf_setStatus_self, statusOf_setStatus_self, hc]
    rfl
  · rw [hbatch, hrhs]
    rfl
  · intro i hi
    rw [hbatch, hrhs, statusOf_setStatus_other _ _ _ _ hi, statusOf_setStatus_other _ _ _ _ hi]

/-- Witness for C6: in a batch holding a bogus job and a rescore job, the bogus
job fails without processor logic and the rescore job's outcome is as if the
bogus job were absent. -/
theorem c6_unknown_type_failed_without_processing_witness :
    (dbC6.jobs.map (fun j => j.id)).Nodup ∧
    claimBatch dbC6 = [] ++ jobC6 :: [jobC6b] ∧
    jobC6.jtype ≠ "parse_csv" ∧ jobC6.jtype ≠ "rescore_all" ∧
    ((∀ db' : DB, jobOps envC6 db' jobC6 = [DBOp.setStatus jobC6.id .failed]) ∧
      statusOf (workerStep envC6 dbC6) jobC6.id = some .failed ∧
      (workerStep envC6 dbC6).transactions
        = (runDB envC6 dbC6 ([] ++ [jobC6b])).transactions ∧
      (∀ i, i ≠ jobC6.id → statusOf (workerStep envC6 dbC6) i
        = statusOf (runDB envC6 dbC6 ([] ++ [jobC6b])) i)) :=
  ⟨by simp [dbC6, jobC6, jobC6b], rfl, by simp [jobC6], by simp [jobC6],
    c6_unknown_type_failed_without_processing envC6 dbC6 [] [jobC6b] jobC6
      (by simp [dbC6, jobC6, jobC6b]) rfl (by simp [jobC6]) (by simp [jobC6])⟩
